import Mathlib

/-!
A shallow embedding of the promtui sampling/aggregation engine
(github.com/sebogh/promtui) in Lean 4, together with theorems checking its
natural-language specification against the code.

Modelling conventions:
- Go float64 values that the code manipulates arithmetically are modelled as
  exact rationals; the special values +Inf, -Inf and NaN of a histogram
  bucket upper bound get an explicit sum type.
- Go time.Time and time.Duration are modelled as integer nanosecond counts.
- Go maps keyed by string are modelled as association lists whose insert
  removes the previous binding, so key iteration and lookup behave like Go.
- A Go runtime panic (index out of range, integer division by zero) is
  modelled by Option.none.
-/

namespace Promtui

/-- Embeds `RingBuffer[T]` from internal/datapoint.go (also `ringBuffer[T]`,
the identical lower-case copy used by `Store`): a fixed slice `buffer`, its
length `size`, the next write index and the occupied count. -/
structure RingBuffer (T : Type) where
  buffer : List T
  size : Nat
  write : Nat
  count : Nat
deriving DecidableEq

/-- Embeds `NewRingBuffer[T](size int)`: a zeroed slice of length `size`
(Go `make([]T, size)`), write index 0, count 0.  The constructor performs no
validation of `size` and has no error result. -/
def NewRingBuffer (T : Type) [Inhabited T] (size : Nat) : RingBuffer T :=
  { buffer := List.replicate size default, size := size, write := 0, count := 0 }

/-- Embeds `RingBuffer.Add`: write the value at the write index, advance the
write index modulo `size`, and saturate `count` at `size`.  For a buffer of
size 0 the Go code panics (index out of range on `rb.buffer[rb.write]`),
modelled as `none`. -/
def RingBuffer.Add {T : Type} (rb : RingBuffer T) (value : T) : Option (RingBuffer T) :=
  if rb.write < rb.buffer.length ∧ 0 < rb.size then
    some { rb with
      buffer := rb.buffer.set rb.write value
      write := (rb.write + 1) % rb.size
      count := if rb.count < rb.size then rb.count + 1 else rb.count }
  else none

/-- Embeds `RingBuffer.Get`: the `count` elements starting at the logically
oldest slot `(write + size - count) % size`, in FIFO order. -/
def RingBuffer.Get {T : Type} [Inhabited T] (rb : RingBuffer T) : List T :=
  (List.range rb.count).map
    (fun i => rb.buffer.getD ((rb.write + rb.size - rb.count + i) % rb.size) default)

/-- Embeds `RingBuffer.Len`: the occupied count. -/
def RingBuffer.Len {T : Type} (rb : RingBuffer T) : Nat :=
  rb.count

/-- The structural invariant every ring buffer reachable from `NewRingBuffer`
with a positive size satisfies: the slice has length `size`, the write index
is in range and at most `size` slots are occupied. -/
def RBInv {T : Type} (rb : RingBuffer T) : Prop :=
  rb.buffer.length = rb.size ∧ rb.write < rb.size ∧ rb.count ≤ rb.size

instance {T : Type} (rb : RingBuffer T) : Decidable (RBInv rb) := by
  unfold RBInv; infer_instance

theorem rbGet_length {T : Type} [Inhabited T] (rb : RingBuffer T) :
    rb.Get.length = rb.count := by
  simp [RingBuffer.Get]

theorem getElem?_map_range {T : Type} (f : Nat → T) (n j : Nat) :
    ((List.range n).map f)[j]? = if j < n then some (f j) else none := by
  rcases Nat.lt_or_ge j n with h | h
  · rw [List.getElem?_map, List.getElem?_range h, if_pos h]; rfl
  · rw [List.getElem?_map, List.getElem?_eq_none (by simpa using h), if_neg (by omega)]; rfl

/-- One `Add` step: on an invariant-satisfying buffer it succeeds, preserves
the invariant, and its FIFO contents gain the new element at the end, losing
the oldest element exactly when the buffer was full. -/
theorem rbAdd_step {T : Type} [Inhabited T] (rb : RingBuffer T) (v : T) (h : RBInv rb) :
    ∃ rb2, rb.Add v = some rb2 ∧ RBInv rb2 ∧ rb2.size = rb.size ∧
      rb2.count = min (rb.count + 1) rb.size ∧
      rb2.Get = (rb.Get ++ [v]).drop (rb.count + 1 - rb.size) := by
  obtain ⟨hlen, hw, hc⟩ := h
  have hpos : 0 < rb.size := Nat.lt_of_le_of_lt (Nat.zero_le _) hw
  have mod2 : ∀ x : Nat, x < 2 * rb.size →
      x % rb.size = if x < rb.size then x else x - rb.size := by
    intro x hx
    split
    · exact Nat.mod_eq_of_lt (by assumption)
    · rw [Nat.mod_eq_sub_mod (by omega)]
      exact Nat.mod_eq_of_lt (by omega)
  have hadd : rb.Add v = some { rb with
      buffer := rb.buffer.set rb.write v,
      write := (rb.write + 1) % rb.size,
      count := if rb.count < rb.size then rb.count + 1 else rb.count } := by
    unfold RingBuffer.Add
    rw [if_pos ⟨by omega, hpos⟩]
  refine ⟨_, hadd, ⟨by simp [hlen], Nat.mod_lt _ hpos, by dsimp only; split <;> omega⟩,
    rfl, by dsimp only; split <;> omega, ?_⟩
  apply List.ext_getElem?
  intro j
  simp only [RingBuffer.Get]
  by_cases hfull : rb.count < rb.size
  · -- buffer not yet full: nothing is dropped
    rw [if_pos hfull]
    have hdrop : rb.count + 1 - rb.size = 0 := by omega
    rw [hdrop, List.drop_zero, getElem?_map_range, List.getElem?_append]
    simp only [List.length_map, List.length_range]
    rcases Nat.lt_trichotomy j rb.count with hj | hj | hj
    · -- an old element, unchanged by the write
      rw [if_pos (by omega), if_pos hj, getElem?_map_range, if_pos hj]
      have e1 : ((rb.write + 1) % rb.size + rb.size - (rb.count + 1) + j) % rb.size
          = (rb.write + rb.size - rb.count + j) % rb.size := by
        rw [mod2 (rb.write + 1) (by omega)]
        split
        · rw [mod2 _ (by omega), mod2 _ (by omega)]
          split_ifs <;> omega
        · rw [mod2 _ (by omega), mod2 _ (by omega)]
          split_ifs <;> omega
      have e2 : (rb.write + rb.size - rb.count + j) % rb.size ≠ rb.write := by
        rw [mod2 _ (by omega)]
        split_ifs <;> omega
      rw [e1, List.getD_eq_getElem?_getD, List.getD_eq_getElem?_getD,
        List.getElem?_set_ne (Ne.symm e2)]
    · -- the slot just written
      subst hj
      rw [if_pos (by omega), if_neg (by omega), Nat.sub_self, List.getElem?_cons_zero]
      have e3 : ((rb.write + 1) % rb.size + rb.size - (rb.count + 1) + rb.count) % rb.size
          = rb.write := by
        rw [mod2 (rb.write + 1) (by omega)]
        split
        · rw [mod2 _ (by omega)]; split_ifs <;> omega
        · rw [mod2 _ (by omega)]; split_ifs <;> omega
      rw [e3, List.getD_eq_getElem?_getD, List.getElem?_set_eq_of_lt _ (by omega)]
      rfl
    · -- past the end on both sides
      rw [if_neg (by omega), if_neg (by omega),
        List.getElem?_eq_none (by simp only [List.length_singleton]; omega)]
  · -- buffer full: the oldest element is dropped
    rw [if_neg hfull]
    have hcs : rb.count = rb.size := by omega
    have hd1 : rb.count + 1 - rb.size = 1 := by omega
    rw [hd1, List.getElem?_drop, getElem?_map_range, List.getElem?_append]
    simp only [List.length_map, List.length_range]
    rcases Nat.lt_trichotomy j (rb.count - 1) with hj | hj | hj
    · -- an element that survives the overwrite, shifted by one
      rw [if_pos (by omega), if_pos (by omega), getElem?_map_range, if_pos (by omega)]
      have e4 : ((rb.write + 1) % rb.size + rb.size - rb.count + j) % rb.size
          = (rb.write + rb.size - rb.count + (1 + j)) % rb.size := by
        rw [mod2 (rb.write + 1) (by omega)]
        split
        · rw [mod2 _ (by omega), mod2 _ (by omega)]
          split_ifs <;> omega
        · rw [mod2 _ (by omega), mod2 _ (by omega)]
          split_ifs <;> omega
      have e5 : (rb.write + rb.size - rb.count + (1 + j)) % rb.size ≠ rb.write := by
        rw [mod2 _ (by omega)]
        split_ifs <;> omega
      rw [e4, List.getD_eq_getElem?_getD, List.getD_eq_getElem?_getD,
        List.getElem?_set_ne (Ne.symm e5)]
    · -- the newest slot, holding the fresh value
      rw [if_pos (by omega), if_neg (by omega)]
      have hx : 1 + j - rb.count = 0 := by omega
      rw [hx, List.getElem?_cons_zero]
      have e6 : ((rb.write + 1) % rb.size + rb.size - rb.count + j) % rb.size
          = rb.write := by
        rw [mod2 (rb.write + 1) (by omega)]
        split
        · rw [mod2 _ (by omega)]; split_ifs <;> omega
        · rw [mod2 _ (by omega)]; split_ifs <;> omega
      rw [e6, List.getD_eq_getElem?_getD, List.getElem?_set_eq_of_lt _ (by omega)]
      rfl
    · -- past the end on both sides
      rw [if_neg (by omega), if_neg (by omega),
        List.getElem?_eq_none (by simp only [List.length_singleton]; omega)]

/-- A sequence of `Add` calls, oldest first.  The `Option` threads the
panic of a single `Add` on a size-0 buffer. -/
def rbAddAll {T : Type} (rb : RingBuffer T) (xs : List T) : Option (RingBuffer T) :=
  match xs with
  | [] => some rb
  | x :: rest =>
    match rb.Add x with
    | none => none
    | some rb2 => rbAddAll rb2 rest

theorem rbAddAll_spec {T : Type} [Inhabited T] (xs : List T) :
    ∀ rb : RingBuffer T, RBInv rb →
      ∃ rb2, rbAddAll rb xs = some rb2 ∧ RBInv rb2 ∧ rb2.size = rb.size ∧
        rb2.count = min (rb.count + xs.length) rb.size ∧
        rb2.Get = (rb.Get ++ xs).drop (rb.count + xs.length - rb.size) := by
  induction xs with
  | nil =>
    intro rb h
    obtain ⟨h1, h2, h3⟩ := h
    refine ⟨rb, rfl, ⟨h1, h2, h3⟩, rfl, by simp only [List.length_nil]; omega, ?_⟩
    simp only [List.length_nil, List.append_nil, Nat.add_zero]
    rw [Nat.sub_eq_zero_of_le h3, List.drop_zero]
  | cons x rest ih =>
    intro rb h
    obtain ⟨rb1, hadd, hinv1, hsz1, hcnt1, hget1⟩ := rbAdd_step rb x h
    obtain ⟨rb2, hall, hinv2, hsz2, hcnt2, hget2⟩ := ih rb1 hinv1
    refine ⟨rb2, ?_, hinv2, hsz2.trans hsz1, ?_, ?_⟩
    · simp [rbAddAll, hadd, hall]
    · rw [hcnt2, hcnt1, hsz1]
      simp only [List.length_cons]
      have := h.2.2
      omega
    · rw [hget2, hget1, hsz1, hcnt1]
      have hA : rb.count + 1 - rb.size ≤ (rb.Get ++ [x]).length := by
        simp only [List.length_append, rbGet_length, List.length_singleton]
        omega
      rw [← List.drop_append_of_le_length hA, List.drop_drop, List.append_assoc,
        List.singleton_append]
      have harith : rb.count + 1 - rb.size +
          (min (rb.count + 1) rb.size + rest.length - rb.size)
          = rb.count + (x :: rest).length - rb.size := by
        simp only [List.length_cons]
        have := h.2.2
        omega
      rw [harith]

/-- C1: for every capacity `N ≥ 1` and every sequence of `k` `Add` calls on a
ring buffer constructed with capacity `N`: if `k ≤ N` then `Len` returns `k`
and `Get` returns all `k` added elements oldest-first; if `k > N` then `Len`
returns `N` and `Get` returns exactly the last `N` added elements,
oldest-first. -/
theorem C1_ringBuffer_add_get_len {T : Type} [Inhabited T] (N : Nat) (xs : List T)
    (hN : 1 ≤ N) :
    ∃ rb, rbAddAll (NewRingBuffer T N) xs = some rb ∧
      (xs.length ≤ N → rb.Len = xs.length ∧ rb.Get = xs) ∧
      (N < xs.length → rb.Len = N ∧ rb.Get = xs.drop (xs.length - N)) := by
  have hinv : RBInv (NewRingBuffer T N) :=
    ⟨by simp [NewRingBuffer], by simpa [NewRingBuffer] using hN, by simp [NewRingBuffer]⟩
  obtain ⟨rb2, hall, _, _, hcnt, hget⟩ := rbAddAll_spec xs _ hinv
  have hget0 : (NewRingBuffer T N).Get = [] := by
    simp [RingBuffer.Get, NewRingBuffer]
  rw [hget0] at hget
  simp only [NewRingBuffer, List.nil_append, Nat.zero_add] at hcnt hget
  refine ⟨rb2, hall, ?_, ?_⟩
  · intro hk
    refine ⟨?_, ?_⟩
    · rw [RingBuffer.Len, hcnt]; omega
    · rw [hget, Nat.sub_eq_zero_of_le hk, List.drop_zero]
  · intro hk
    refine ⟨?_, ?_⟩
    · rw [RingBuffer.Len, hcnt]; omega
    · exact hget

/-- Witness for C1 at capacity 2 with three adds. -/
theorem C1_ringBuffer_add_get_len_witness :
    1 ≤ 2 ∧
    (∃ rb, rbAddAll (NewRingBuffer Nat 2) [1, 2, 3] = some rb ∧
      ([1, 2, 3].length ≤ 2 → rb.Len = [1, 2, 3].length ∧ rb.Get = [1, 2, 3]) ∧
      (2 < [1, 2, 3].length → rb.Len = 2 ∧
        rb.Get = [1, 2, 3].drop ([1, 2, 3].length - 2))) :=
  ⟨by decide, C1_ringBuffer_add_get_len 2 [1, 2, 3] (by decide)⟩

/-- Embeds `ObservationKind` and its constants `ObservationCounter`,
`ObservationCounterRate`, `ObservationGauge`, `ObservationHistogramBucket`,
`ObservationHistogramSum`, `ObservationHistogramCount`,
`ObservationHistogramAvg`, `ObservationSummarySum` and
`ObservationSummaryCount`. -/
inductive ObservationKind where
  | counter
  | counterRate
  | gauge
  | histogramBucket
  | histogramSum
  | histogramCount
  | histogramAvg
  | summarySum
  | summaryCount
deriving DecidableEq

/-- Embeds `Observation`: Go `time.Time` is modelled as nanoseconds since
the epoch, float64 as an exact rational. -/
structure Observation where
  Name : String
  Kind : ObservationKind
  Time : Int
  Value : Rat
deriving DecidableEq

instance : Inhabited Observation := ⟨⟨"", ObservationKind.counter, 0, 0⟩⟩

/-- Embeds `NewObservation`. -/
def NewObservation (name : String) (kind : ObservationKind) (ts : Int) (value : Rat) :
    Observation :=
  { Name := name, Kind := kind, Time := ts, Value := value }

/-- A Go `map[string]Observation`, modelled as an association list in which
an insert removes the previous binding of its key; lookup is `List.lookup`
and the key set is the list of first components. -/
abbrev Snapshot := List (String × Observation)

/-- Map assignment `m[k] = v` of a Go map. -/
def mapInsert (m : Snapshot) (k : String) (v : Observation) : Snapshot :=
  (k, v) :: m.filter (fun p => p.1 != k)

/-- The body of the `for` loop of `getSeries`, which runs `i` from
`len(data)-1` down to `0` and stops at the first snapshot lacking the
name; here the list is already reversed (newest first). -/
def seriesLoop (name : String) : List Snapshot → List Observation
  | [] => []
  | d :: ds =>
    match d.lookup name with
    | none => []
    | some o => o :: seriesLoop name ds

/-- Embeds `getSeries(data, name)` of part_003 (`itemValues` in
internal/timeseries.go is the same loop returning bare values): the
observations for `name` from youngest to oldest, truncated at the first
snapshot without the name. -/
def getSeries (data : List Snapshot) (name : String) : List Observation :=
  seriesLoop name data.reverse

/-- Character-level model of Go `strings.ToLower` (exact on the ASCII
names the program manipulates). -/
def goToLower (s : String) : String := ⟨s.data.map Char.toLower⟩

/-- Model of Go `strings.Contains`: some suffix of `s` starts with `sub`. -/
def containsSub (s sub : List Char) : Bool :=
  match s with
  | [] => sub.isEmpty
  | _ :: t => sub.isPrefixOf s || containsSub t sub

/-- The filter predicate inside `filterAndSort`: an empty filter keeps
every name, otherwise case-insensitive substring containment
(`strings.Contains(strings.ToLower(k), strings.ToLower(f))`). -/
def keepName (f k : String) : Bool :=
  f == "" || containsSub (goToLower k).data (goToLower f).data

/-- A token of a name under natural ordering: a maximal run of decimal
digits with its numeric value, or a single other character. -/
inductive NameTok where
  | num (value : Nat) (digits : List Char)
  | ch (c : Char)
deriving DecidableEq

/-- One step of the tokenizer; the accumulator holds the tokens in reverse
order and the digits of a run in reverse order. -/
def pushTok (acc : List NameTok) (c : Char) : List NameTok :=
  if c.isDigit then
    match acc with
    | NameTok.num v ds :: rest => NameTok.num (v * 10 + (c.toNat - 48)) (c :: ds) :: rest
    | _ => NameTok.num (c.toNat - 48) [c] :: acc
  else NameTok.ch c :: acc

/-- Tokenize a name into digit runs and single characters. -/
def natTokens (s : List Char) : List NameTok :=
  ((s.foldl pushTok []).map (fun t =>
    match t with
    | NameTok.num v ds => NameTok.num v ds.reverse
    | t => t)).reverse

/-- Lexicographic comparison of token lists: digit runs compare by numeric
value, characters by code point; a digit run against a character compares
via the run's first digit. -/
def tokLess : List NameTok → List NameTok → Bool
  | [], [] => false
  | [], _ :: _ => true
  | _ :: _, [] => false
  | x :: xs, y :: ys =>
    match x, y with
    | NameTok.num m _, NameTok.num n _ =>
      if m = n then tokLess xs ys else decide (m < n)
    | NameTok.ch c, NameTok.ch d =>
      if c = d then tokLess xs ys else decide (c < d)
    | NameTok.num _ ds, NameTok.ch d => decide (ds.headD '0' < d)
    | NameTok.ch c, NameTok.num _ ds => decide (c < ds.headD '0')

/-- Modelled from the spec: the natural (human) string ordering provided by
the external maruel/natural library, whose source is not part of this
repository — "embedded integers compare by numeric value, not
lexicographically, so item2 sorts before item10". -/
def naturalLess (a b : String) : Bool :=
  tokLess (natTokens a.data) (natTokens b.data)

/-- The natural order as a decidable relation, for sorting. -/
def NaturalLt (a b : String) : Prop := naturalLess a b = true

instance : DecidableRel NaturalLt :=
  fun a b => instDecidableEqBool (naturalLess a b) true

/-- Embeds `filterAndSort(obs, f)` of the Store: collect the keys of the
given snapshot, keep those matching the filter, and sort them.  Go's
`sort.Sort(natural.StringSlice(names))` — an unspecified comparison sort
by `natural.Less` — is modelled as insertion sort by `naturalLess`. -/
def filterAndSort (obs : Snapshot) (f : String) : List String :=
  List.insertionSort NaturalLt ((obs.map Prod.fst).filter (keepName f))

/-- Embeds `Store`: the endpoint, the ring buffer of snapshots, and the
state of the `sync.RWMutex` (`true` while a `Sample` call holds the write
lock). -/
structure Store where
  endpoint : String
  rb : RingBuffer Snapshot
  locked : Bool
deriving DecidableEq

/-- Embeds `NewStore(size, endpoint)`: builds the store around
`newRingBuffer(size)`; there is no validation of `size` and no error
result. -/
def NewStore (size : Nat) (endpoint : String) : Store :=
  { endpoint := endpoint, rb := NewRingBuffer Snapshot size, locked := false }

/-- Embeds `Store.Dump(f)`: one atomic copy of the buffer (`h.rb.get()`
under `RLock`), the `EmptyHistory` error `"no data points"` on an empty
buffer, otherwise the naturally-sorted filtered names of the newest
snapshot with their series, dropping names whose series is empty. -/
def Store.Dump (h : Store) (f : String) : Except String (List (List Observation)) :=
  let data := h.rb.Get
  if data.length = 0 then Except.error "no data points"
  else
    let names := filterAndSort (data.getLastD []) f
    Except.ok (names.filterMap (fun name =>
      let values := getSeries data name
      if values.length = 0 then none else some values))

theorem seriesLoop_eq (name : String) (l : List Snapshot) :
    seriesLoop name l
      = ((l.map (fun d => d.lookup name)).takeWhile Option.isSome).reduceOption := by
  induction l with
  | nil => rfl
  | cons d ds ih =>
    cases h : d.lookup name with
    | none => simp [seriesLoop, h, List.takeWhile_cons]
    | some o => simp [seriesLoop, h, List.takeWhile_cons, ih, List.reduceOption]

/-- C2: for every name, `getSeries` lists the name's observations
newest-first and truncates at the first snapshot, scanning from newest to
oldest, that lacks the name (presence contiguous from the newest snapshot
backward); in particular three successive snapshots `{a:1},{a:2},{a:3}`
yield the value series `[3,2,1]` for metric `a`. -/
theorem C2_series_newest_first_contiguous :
    (∀ (data : List Snapshot) (name : String),
      getSeries data name
        = ((data.reverse.map (fun d => d.lookup name)).takeWhile
            Option.isSome).reduceOption) ∧
    ((getSeries
        [[("a", NewObservation "a" ObservationKind.counter 1 1)],
         [("a", NewObservation "a" ObservationKind.counter 2 2)],
         [("a", NewObservation "a" ObservationKind.counter 3 3)]] "a").map
       (fun o => o.Value)) = [3, 2, 1] := by
  constructor
  · intro data name
    exact seriesLoop_eq name data.reverse
  · decide

theorem lookup_of_mem_keys (m : Snapshot) (k : String) (h : k ∈ m.map Prod.fst) :
    ∃ o, m.lookup k = some o := by
  induction m with
  | nil => simp at h
  | cons p t ih =>
    obtain ⟨k1, v1⟩ := p
    cases hbeq : k == k1 with
    | true => exact ⟨v1, by simp [List.lookup, hbeq]⟩
    | false =>
      have hk : k ≠ k1 := by simpa using hbeq
      have hmem : k ∈ k1 :: t.map Prod.fst := by simpa using h
      rcases List.mem_cons.mp hmem with h1 | h2
      · exact absurd h1 hk
      obtain ⟨o, ho⟩ := ih h2
      exact ⟨o, by simp [List.lookup, hbeq, ho]⟩

theorem getSeries_ne_nil (data : List Snapshot) (hne : data ≠ []) (name : String)
    (o : Observation) (h : (data.getLastD []).lookup name = some o) :
    getSeries data name ≠ [] := by
  obtain ⟨l, last, rfl⟩ : ∃ l a, data = l ++ [a] :=
    ⟨data.dropLast, data.getLast hne, (List.dropLast_append_getLast hne).symm⟩
  have hrev : (l ++ [last]).reverse = last :: l.reverse := by simp
  have hlast : (l ++ [last]).getLastD ([] : Snapshot) = last := by simp
  rw [hlast] at h
  rw [getSeries, hrev, seriesLoop, h]
  simp

theorem dump_names_map (data : List Snapshot) (names : List String)
    (h : ∀ n ∈ names, getSeries data n ≠ []) :
    names.filterMap (fun name =>
        let values := getSeries data name
        if values.length = 0 then none else some values)
      = names.map (getSeries data) := by
  induction names with
  | nil => rfl
  | cons n t ih =>
    rw [List.filterMap_cons, List.map_cons]
    have hn : getSeries data n ≠ [] := h n (by simp)
    rw [if_neg (by simpa [List.length_eq_zero] using hn)]
    rw [ih (fun m hm => h m (by simp [hm]))]

theorem mem_keys_of_filterAndSort (m : Snapshot) (f : String) (n : String)
    (h : n ∈ filterAndSort m f) : n ∈ m.map Prod.fst := by
  have hperm := List.perm_insertionSort NaturalLt ((m.map Prod.fst).filter (keepName f))
  have : n ∈ (m.map Prod.fst).filter (keepName f) := hperm.mem_iff.mp h
  exact (List.mem_filter.mp this).1

/-- The concrete snapshot of C3's natural-sort example. -/
def c3snap : Snapshot :=
  [("item2", NewObservation "item2" ObservationKind.gauge 0 0),
   ("item10", NewObservation "item10" ObservationKind.gauge 0 0),
   ("item1", NewObservation "item1" ObservationKind.gauge 0 0)]

/-- A store holding exactly the snapshot `c3snap`. -/
def c3store : Store :=
  { endpoint := "",
    rb := { buffer := [c3snap], size := 1, write := 0, count := 1 },
    locked := false }

/-- C3: `Dump` returns the `EmptyHistory` error `"no data points"` when the
buffer holds no snapshot; otherwise it returns one series per name of the
newest snapshot matching the filter case-insensitively (all names for the
empty filter), in natural sort order — a permutation of the matching names
sorted by `naturalLess` — and an empty match set gives an empty result, not
an error; embedded integers compare numerically, so the names
`item2, item10, item1` sort as `item1, item2, item10`. -/
theorem C3_dump_filter_sort :
    (∀ (h : Store) (f : String),
      h.rb.Get = [] → h.Dump f = Except.error "no data points") ∧
    (∀ (h : Store) (f : String), h.rb.Get ≠ [] →
      h.Dump f = Except.ok
        ((filterAndSort (h.rb.Get.getLastD []) f).map (getSeries h.rb.Get))) ∧
    (∀ (m : Snapshot) (f : String),
      (filterAndSort m f).Perm ((m.map Prod.fst).filter (keepName f))) ∧
    filterAndSort c3snap "" = ["item1", "item2", "item10"] ∧
    c3store.Dump "xyz" = Except.ok [] := by
  refine ⟨?_, ?_, ?_, ?_, ?_⟩
  · intro h f hget
    unfold Store.Dump
    rw [if_pos (by simp [hget])]
  · intro h f hne
    unfold Store.Dump
    rw [if_neg (by simpa [List.length_eq_zero] using hne)]
    show Except.ok ((filterAndSort (h.rb.Get.getLastD []) f).filterMap (fun name =>
        let values := getSeries h.rb.Get name
        if values.length = 0 then none else some values)) = _
    rw [dump_names_map]
    intro n hn
    obtain ⟨o, ho⟩ := lookup_of_mem_keys _ _ (mem_keys_of_filterAndSort _ _ _ hn)
    exact getSeries_ne_nil _ hne _ o ho
  · intro m f
    exact List.perm_insertionSort NaturalLt _
  · decide
  · rfl

/-- Witness for C3's non-empty branch at the concrete store. -/
theorem C3_dump_filter_sort_witness :
    c3store.rb.Get ≠ [] ∧
    c3store.Dump "" = Except.ok
      ((filterAndSort (c3store.rb.Get.getLastD []) "").map (getSeries c3store.rb.Get)) :=
  ⟨by decide, C3_dump_filter_sort.2.1 c3store "" (by decide)⟩

/-- Model of a Go float64 as used for histogram bucket upper bounds: an
exact rational or one of the special values. -/
inductive GoFloat where
  | finite (q : Rat)
  | posInf
  | negInf
  | nan
deriving DecidableEq

/-- Round half away from zero of the fraction `n / d` (`d ≠ 0`): the
behaviour of Go `math.Round` on an exact rational. -/
def roundHalfAwayDiv (n : Int) (d : Nat) : Int :=
  if 0 ≤ n then (((2 * n.toNat + d) / (2 * d) : Nat) : Int)
  else -((((2 * (-n).toNat + d) / (2 * d) : Nat) : Int))

/-- Go `math.Round(q * 100)` as an integer (`q * 100 = (num * 100) / den`),
computed on the numerator and denominator so that it evaluates by kernel
reduction. -/
def roundTimes100 (q : Rat) : Int := roundHalfAwayDiv (q.num * 100) q.den

/-- A rational given literally by an already-reduced numerator and
denominator, for concrete test values (the arithmetic operations on `Rat`
do not reduce in the kernel; literal structures do). -/
def ratLit (n : Int) (d : Nat) (h1 : d ≠ 0) (h2 : n.natAbs.Coprime d) : Rat :=
  ⟨n, d, h1, h2⟩

/-- Decimal rendering of `k/100` with trailing zeros stripped: what Go
`strconv.FormatFloat(x, 'f', -1, 64)` prints for a value that is an exact
multiple of 1/100 — which is what the code formats, a bound already
rounded to 2 decimals. -/
def formatCenti (k : Int) : String :=
  let sign := if k < 0 then "-" else ""
  let n := k.natAbs
  let ip := n / 100
  let fr := n % 100
  if fr = 0 then sign ++ toString ip
  else if fr % 10 = 0 then sign ++ toString ip ++ "." ++ toString (fr / 10)
  else if fr < 10 then sign ++ toString ip ++ ".0" ++ toString fr
  else sign ++ toString ip ++ "." ++ toString fr

/-- The `le` label value,
`strconv.FormatFloat(math.Round(ub*100)/100, 'f', -1, 64)`: Go's strconv
renders the special float values as `"+Inf"`, `"-Inf"` and `"NaN"`
(`math.Round` maps each special value to itself). -/
def upperBoundStr (ub : GoFloat) : String :=
  match ub with
  | GoFloat.finite q => formatCenti (roundTimes100 q)
  | GoFloat.posInf => "+Inf"
  | GoFloat.negInf => "-Inf"
  | GoFloat.nan => "NaN"

/-- Embeds the protobuf `LabelPair`. -/
structure LabelPair where
  name : String
  value : String
deriving DecidableEq

/-- A hexadecimal digit, lower case. -/
def hexDigit (n : Nat) : Char :=
  if n < 10 then Char.ofNat (48 + n) else Char.ofNat (87 + n)

/-- One character of Go `%q` output (strconv.Quote): quote and backslash
get a backslash escape, printable ASCII passes through, the named control
escapes and `\xHH` cover the rest of the ASCII range.  Non-ASCII
characters pass through (Go additionally escapes non-printable non-ASCII
runes; the names and labels involved here are ASCII). -/
def goQuoteChar (c : Char) : List Char :=
  if c = '\"' then ['\\', '\"']
  else if c = '\\' then ['\\', '\\']
  else if 32 ≤ c.toNat ∧ c.toNat ≤ 126 then [c]
  else if c = '\n' then ['\\', 'n']
  else if c = '\t' then ['\\', 't']
  else if c = '\r' then ['\\', 'r']
  else if c.toNat = 7 then ['\\', 'a']
  else if c.toNat = 8 then ['\\', 'b']
  else if c.toNat = 12 then ['\\', 'f']
  else if c.toNat = 11 then ['\\', 'v']
  else if c.toNat < 256 then ['\\', 'x', hexDigit (c.toNat / 16), hexDigit (c.toNat % 16)]
  else [c]

/-- Go `%q` on a string: strconv.Quote. -/
def goQuote (s : String) : String :=
  ⟨'\"' :: ((s.data.map goQuoteChar).flatten ++ ['\"'])⟩

/-- Embeds `flatName(name, labels)`: with no labels the bare name,
otherwise the name, a space, and the label pairs in payload order between
literal braces, each value rendered by Go `%q`. -/
def flatName (name : String) (labels : List LabelPair) : String :=
  if labels.length = 0 then name
  else
    let labelParts := labels.map (fun label => label.name ++ "=" ++ goQuote label.value)
    name ++ " \x7b" ++ String.intercalate ", " labelParts ++ "\x7d"

/-- Embeds a decoded histogram bucket; the protobuf getters default to
zero when a field is unset. -/
structure Bucket where
  upperBound : GoFloat := GoFloat.finite 0
  cumulativeCount : Nat := 0
  cumulativeCountFloat : Rat := 0
deriving DecidableEq

/-- Embeds a decoded histogram message. -/
structure Histogram where
  sampleSum : Rat := 0
  sampleCount : Nat := 0
  sampleCountFloat : Rat := 0
  buckets : List Bucket := []
deriving DecidableEq

/-- Embeds a decoded summary message (only the fields the code reads). -/
structure Summary where
  sampleSum : Rat := 0
  sampleCount : Nat := 0
deriving DecidableEq

/-- The protobuf `MetricType` values the code switches on; every other tag
behaves like `untyped` (no case matches). -/
inductive MetricType where
  | counter
  | gauge
  | histogram
  | gaugeHistogram
  | summary
  | untyped
deriving DecidableEq

/-- Embeds a protobuf `Metric`: the label list plus the per-shape payloads
(a getter on an absent shape returns the zero value, as protobuf getters
do on a nil message). -/
structure Metric where
  labels : List LabelPair := []
  counterValue : Rat := 0
  gaugeValue : Rat := 0
  histogram : Histogram := {}
  summary : Summary := {}
deriving DecidableEq

/-- Embeds a protobuf `MetricFamily`. -/
structure MetricFamily where
  name : String
  type : MetricType
  metrics : List Metric
deriving DecidableEq

/-- The body of the metric loop of `flatten` (part_003): dispatch on the
family type and insert the flattened observations.  The histogram case
writes each bucket (preferring a positive float cumulative count over the
integer one), then `_sum`, then `_count` (same preference), then `_avg`
when the count is positive; the summary case writes `_sum` and `_count`;
unknown family types insert nothing. -/
def flattenMetric (mfName : String) (mType : MetricType) (ts : Int) (obs : Snapshot)
    (m : Metric) : Snapshot :=
  match mType with
  | MetricType.histogram | MetricType.gaugeHistogram =>
    let obs := m.histogram.buckets.foldl (fun obs b =>
      let roundedUpperBoundStr := upperBoundStr b.upperBound
      let bLabels := m.labels ++ [{ name := "le", value := roundedUpperBoundStr }]
      let name := flatName (mfName ++ "_bucket") bLabels
      let value := if b.cumulativeCountFloat ≤ 0 then (b.cumulativeCount : Rat)
        else b.cumulativeCountFloat
      mapInsert obs name (NewObservation name ObservationKind.histogramBucket ts value)) obs
    let name := flatName (mfName ++ "_sum") m.labels
    let sampleSum := m.histogram.sampleSum
    let obs := mapInsert obs name
      (NewObservation name ObservationKind.histogramSum ts sampleSum)
    let name := flatName (mfName ++ "_count") m.labels
    let sampleCount := if m.histogram.sampleCountFloat ≤ 0 then (m.histogram.sampleCount : Rat)
      else m.histogram.sampleCountFloat
    let obs := mapInsert obs name
      (NewObservation name ObservationKind.histogramCount ts sampleCount)
    if 0 < sampleCount then
      let avg := sampleSum / sampleCount
      let name := flatName (mfName ++ "_avg") m.labels
      mapInsert obs name (NewObservation name ObservationKind.histogramAvg ts avg)
    else obs
  | MetricType.counter =>
    let name := flatName mfName m.labels
    mapInsert obs name (NewObservation name ObservationKind.counter ts m.counterValue)
  | MetricType.gauge =>
    let name := flatName mfName m.labels
    mapInsert obs name (NewObservation name ObservationKind.gauge ts m.gaugeValue)
  | MetricType.summary =>
    let name := flatName (mfName ++ "_sum") m.labels
    let obs := mapInsert obs name
      (NewObservation name ObservationKind.summarySum ts m.summary.sampleSum)
    let name := flatName (mfName ++ "_count") m.labels
    mapInsert obs name
      (NewObservation name ObservationKind.summaryCount ts (m.summary.sampleCount : Rat))
  | MetricType.untyped => obs

/-- Embeds `flatten(mfs, ts)` (part_003): fold the decoded families in
slice order, and within each family its metrics, into one snapshot. -/
def flatten (mfs : List MetricFamily) (ts : Int) : Snapshot :=
  mfs.foldl (fun obs mf => mf.metrics.foldl (flattenMetric mf.name mf.type ts) obs) []

/-- Insert a list of (key, observation) pairs left to right, the shape of
the assignment sequence a `flatten` case performs. -/
def insertAll (obs : Snapshot) (entries : List (String × Observation)) : Snapshot :=
  entries.foldl (fun o e => mapInsert o e.1 e.2) obs

theorem lookup_mapInsert_self (m : Snapshot) (k : String) (v : Observation) :
    (mapInsert m k v).lookup k = some v := by
  simp [mapInsert, List.lookup]

theorem lookup_filter_ne (m : Snapshot) (k k1 : String) (h : k ≠ k1) :
    (m.filter (fun p => p.1 != k1)).lookup k = m.lookup k := by
  induction m with
  | nil => rfl
  | cons p t ih =>
    obtain ⟨ka, va⟩ := p
    by_cases hka : ka = k1
    · subst hka
      have hfc : ((ka, va).1 != ka) = false := by simp
      have hbeq : (k == ka) = false := by simpa using h
      simp [List.filter_cons, hfc, List.lookup, hbeq, ih]
    · have hfc : ((ka, va).1 != k1) = true := by simpa using hka
      cases hbeq : k == ka with
      | true => simp [List.filter_cons, hfc, List.lookup, hbeq]
      | false => simp [List.filter_cons, hfc, List.lookup, hbeq, ih]

theorem lookup_mapInsert_ne (m : Snapshot) (k k1 : String) (v : Observation)
    (h : k ≠ k1) : (mapInsert m k1 v).lookup k = m.lookup k := by
  rw [mapInsert, List.lookup]
  have : (k == k1) = false := by simpa using h
  rw [this]
  exact lookup_filter_ne m k k1 h

theorem lookup_append_pairs (l1 l2 : List (String × Observation)) (k : String) :
    (l1 ++ l2).lookup k
      = match l1.lookup k with
        | some v => some v
        | none => l2.lookup k := by
  induction l1 with
  | nil => rfl
  | cons p t ih =>
    obtain ⟨ka, va⟩ := p
    rw [List.cons_append, List.lookup, List.lookup]
    cases hbeq : k == ka with
    | true => rfl
    | false => exact ih

theorem lookup_insertAll (entries : List (String × Observation)) :
    ∀ (obs : Snapshot) (k : String),
      (insertAll obs entries).lookup k
        = match entries.reverse.lookup k with
          | some v => some v
          | none => obs.lookup k := by
  induction entries with
  | nil => intro obs k; rfl
  | cons e t ih =>
    intro obs k
    obtain ⟨k1, v1⟩ := e
    have hstep : insertAll obs ((k1, v1) :: t) = insertAll (mapInsert obs k1 v1) t := rfl
    rw [hstep, ih (mapInsert obs k1 v1) k]
    have hrev : ((k1, v1) :: t).reverse = t.reverse ++ [(k1, v1)] := by simp
    rw [hrev, lookup_append_pairs]
    cases ht : t.reverse.lookup k with
    | some v => rfl
    | none =>
      by_cases hk : k = k1
      · subst hk
        rw [lookup_mapInsert_self]
        simp [List.lookup]
      · rw [lookup_mapInsert_ne _ _ _ _ hk]
        have : (k == k1) = false := by simpa using hk
        simp [List.lookup, this]

theorem lookup_of_mem_nodup (entries : List (String × Observation)) (k : String)
    (v : Observation) (hmem : (k, v) ∈ entries)
    (hnodup : (entries.map Prod.fst).Nodup) : entries.lookup k = some v := by
  induction entries with
  | nil => simp at hmem
  | cons p t ih =>
    obtain ⟨ka, va⟩ := p
    rw [List.map_cons, List.nodup_cons] at hnodup
    rcases List.mem_cons.mp hmem with h1 | h2
    · rw [Prod.mk.injEq] at h1
      obtain ⟨hk, hv⟩ := h1
      subst hk
      subst hv
      simp [List.lookup]
    · have hne : k ≠ ka := by
        intro he
        subst he
        exact hnodup.1 (List.mem_map.mpr ⟨(k, v), h2, rfl⟩)
      rw [List.lookup]
      have : (k == ka) = false := by simpa using hne
      rw [this]
      exact ih h2 hnodup.2

/-- The (key, observation) pairs a single histogram metric writes, in
program order: one per bucket, then `_sum`, then `_count`, then `_avg`
when the sample count is positive. -/
def histEmits (mfName : String) (ts : Int) (m : Metric) :
    List (String × Observation) :=
  (m.histogram.buckets.map (fun b =>
    let nm := flatName (mfName ++ "_bucket")
      (m.labels ++ [{ name := "le", value := upperBoundStr b.upperBound }])
    (nm, NewObservation nm ObservationKind.histogramBucket ts
      (if b.cumulativeCountFloat ≤ 0 then (b.cumulativeCount : Rat)
       else b.cumulativeCountFloat))))
  ++ (let sumName := flatName (mfName ++ "_sum") m.labels
      let countName := flatName (mfName ++ "_count") m.labels
      let sampleCount := if m.histogram.sampleCountFloat ≤ 0 then
          (m.histogram.sampleCount : Rat) else m.histogram.sampleCountFloat
      (sumName, NewObservation sumName ObservationKind.histogramSum ts
          m.histogram.sampleSum)
        :: (countName, NewObservation countName ObservationKind.histogramCount ts
          sampleCount)
        :: (if 0 < sampleCount then
              let avgName := flatName (mfName ++ "_avg") m.labels
              [(avgName, NewObservation avgName ObservationKind.histogramAvg ts
                (m.histogram.sampleSum / sampleCount))]
            else []))

theorem flattenMetric_hist_eq (mfName : String) (ts : Int) (obs : Snapshot)
    (m : Metric) :
    flattenMetric mfName MetricType.histogram ts obs m
      = insertAll obs (histEmits mfName ts m) := by
  unfold flattenMetric histEmits insertAll
  rw [List.foldl_append, List.foldl_map]
  by_cases h1 : m.histogram.sampleCountFloat ≤ 0
  · simp only [if_pos h1]
    by_cases h2 : (0 : Rat) < (m.histogram.sampleCount : Rat)
    · simp only [if_pos h2]; rfl
    · simp only [if_neg h2]; rfl
  · simp only [if_neg h1]
    by_cases h2 : (0 : Rat) < m.histogram.sampleCountFloat
    · simp only [if_pos h2]; rfl
    · simp only [if_neg h2]; rfl

/-- The 0.5 bucket of the spec's flattening example, cumulative count 3. -/
def reqBucket1 : Bucket :=
  { upperBound := GoFloat.finite (ratLit 1 2 (by decide) (by decide)),
    cumulativeCount := 3, cumulativeCountFloat := 0 }

/-- The 1.0 bucket of the example, cumulative count 5. -/
def reqBucket2 : Bucket :=
  { upperBound := GoFloat.finite (ratLit 1 1 (by decide) (by decide)),
    cumulativeCount := 5, cumulativeCountFloat := 0 }

/-- The +Inf bucket of the example, cumulative count 7. -/
def reqBucket3 : Bucket :=
  { upperBound := GoFloat.posInf, cumulativeCount := 7, cumulativeCountFloat := 0 }

/-- The example histogram: sample sum 12.3, integer sample count 7 (float
count unset). -/
def reqHist : Histogram :=
  { sampleSum := ratLit 123 10 (by decide) (by decide), sampleCount := 7,
    sampleCountFloat := 0, buckets := [reqBucket1, reqBucket2, reqBucket3] }

/-- The single unlabelled metric of the example family. -/
def reqMetric : Metric := { labels := [], histogram := reqHist }

/-- The histogram family of the spec's flattening example. -/
def reqFam : MetricFamily :=
  { name := "requests", type := MetricType.histogram, metrics := [reqMetric] }

/-- C4 counterexample: the claim renders the `+Inf` upper bound as `"Inf"`,
but Go's `strconv.FormatFloat(+Inf, 'f', -1, 64)` renders `"+Inf"`: the
flattened example family has no key with `le="Inf"` and does have the key
with `le="+Inf"`. -/
theorem C4_le_inf_counterexample :
    (flatten [reqFam] 0).lookup "requests_bucket \x7ble=\"Inf\"\x7d" = none ∧
    (flatten [reqFam] 0).lookup "requests_bucket \x7ble=\"+Inf\"\x7d" ≠ none := by
  decide

/-- C4 (amended): flattening a histogram family emits one bucket
observation per bucket whose name appends `_bucket` and an `le` label
rendering the rounded upper bound (`"+Inf"` — not `"Inf"` — for an
infinite bound), whose value prefers the positive float cumulative count
and falls back to the integer count, plus a `_sum` and a `_count`
observation; on the example family the le values are `"0.5"`, `"1"` and
`"+Inf"`, with sum 12.3 and count 7. -/
theorem C4_histogram_flatten (mfName : String) (ts : Int) (m : Metric)
    (hnodup : ((histEmits mfName ts m).map Prod.fst).Nodup) :
    (∀ b ∈ m.histogram.buckets,
      (flatten [⟨mfName, MetricType.histogram, [m]⟩] ts).lookup
          (flatName (mfName ++ "_bucket")
            (m.labels ++ [{ name := "le", value := upperBoundStr b.upperBound }]))
        = some (NewObservation
            (flatName (mfName ++ "_bucket")
              (m.labels ++ [{ name := "le", value := upperBoundStr b.upperBound }]))
            ObservationKind.histogramBucket ts
            (if b.cumulativeCountFloat ≤ 0 then (b.cumulativeCount : Rat)
             else b.cumulativeCountFloat))) ∧
    ((flatten [⟨mfName, MetricType.histogram, [m]⟩] ts).lookup
        (flatName (mfName ++ "_sum") m.labels)
      = some (NewObservation (flatName (mfName ++ "_sum") m.labels)
          ObservationKind.histogramSum ts m.histogram.sampleSum)) ∧
    ((flatten [⟨mfName, MetricType.histogram, [m]⟩] ts).lookup
        (flatName (mfName ++ "_count") m.labels)
      = some (NewObservation (flatName (mfName ++ "_count") m.labels)
          ObservationKind.histogramCount ts
          (if m.histogram.sampleCountFloat ≤ 0 then (m.histogram.sampleCount : Rat)
           else m.histogram.sampleCountFloat))) := by
  have hflat : flatten [⟨mfName, MetricType.histogram, [m]⟩] ts
      = insertAll [] (histEmits mfName ts m) := by
    unfold flatten
    rw [List.foldl_cons, List.foldl_nil, List.foldl_cons, List.foldl_nil]
    exact flattenMetric_hist_eq mfName ts [] m
  have hrevnodup : ((histEmits mfName ts m).reverse.map Prod.fst).Nodup := by
    rw [List.map_reverse]
    exact List.nodup_reverse.mpr hnodup
  have hlook : ∀ (k : String) (v : Observation), (k, v) ∈ histEmits mfName ts m →
      (flatten [⟨mfName, MetricType.histogram, [m]⟩] ts).lookup k = some v := by
    intro k v hmem
    rw [hflat, lookup_insertAll]
    rw [lookup_of_mem_nodup _ _ v (List.mem_reverse.mpr hmem) hrevnodup]
  refine ⟨?_, ?_, ?_⟩
  · intro b hb
    apply hlook
    unfold histEmits
    apply List.mem_append_left
    exact List.mem_map.mpr ⟨b, hb, rfl⟩
  · apply hlook
    unfold histEmits
    apply List.mem_append_right
    exact List.mem_cons_self _ _
  · apply hlook
    unfold histEmits
    apply List.mem_append_right
    exact List.mem_cons_of_mem _ (List.mem_cons_self _ _)

/-- Witness for C4 at the example family: the three bucket keys carry
`le="0.5"`, `le="1"` and `le="+Inf"`, the `_sum` value is 12.3, the
`_count` value 7. -/
theorem C4_histogram_flatten_witness :
    ((flatten [reqFam] 0).lookup "requests_bucket \x7ble=\"0.5\"\x7d"
        = some (NewObservation "requests_bucket \x7ble=\"0.5\"\x7d"
            ObservationKind.histogramBucket 0 3)) ∧
    ((flatten [reqFam] 0).lookup "requests_bucket \x7ble=\"1\"\x7d"
        = some (NewObservation "requests_bucket \x7ble=\"1\"\x7d"
            ObservationKind.histogramBucket 0 5)) ∧
    ((flatten [reqFam] 0).lookup "requests_bucket \x7ble=\"+Inf\"\x7d"
        = some (NewObservation "requests_bucket \x7ble=\"+Inf\"\x7d"
            ObservationKind.histogramBucket 0 7)) ∧
    ((flatten [reqFam] 0).lookup "requests_sum"
        = some (NewObservation "requests_sum" ObservationKind.histogramSum 0
            (ratLit 123 10 (by decide) (by decide)))) ∧
    ((flatten [reqFam] 0).lookup "requests_count"
        = some (NewObservation "requests_count" ObservationKind.histogramCount 0 7)) := by
  obtain ⟨hb, hs, hc⟩ := C4_histogram_flatten "requests" 0 reqMetric (by decide)
  refine ⟨?_, ?_, ?_, ?_, ?_⟩
  · exact hb reqBucket1 (by decide)
  · exact hb reqBucket2 (by decide)
  · exact hb reqBucket3 (by decide)
  · exact hs
  · exact hc

/-- A character that Go `%q` passes through unchanged: printable ASCII
other than the quote and the backslash. -/
def PlainChar (c : Char) : Prop :=
  32 ≤ c.toNat ∧ c.toNat ≤ 126 ∧ c ≠ '\"' ∧ c ≠ '\\'

instance (c : Char) : Decidable (PlainChar c) := by
  unfold PlainChar; infer_instance

theorem goQuoteChar_plain (c : Char) (h : PlainChar c) : goQuoteChar c = [c] := by
  obtain ⟨h1, h2, h3, h4⟩ := h
  unfold goQuoteChar
  rw [if_neg h3, if_neg h4, if_pos ⟨h1, h2⟩]

theorem flatten_quote_plain (l : List Char) (h : ∀ c ∈ l, PlainChar c) :
    (l.map goQuoteChar).flatten = l := by
  induction l with
  | nil => rfl
  | cons c t ih =>
    rw [List.map_cons, List.flatten_cons, goQuoteChar_plain c (h c (by simp)),
      ih (fun x hx => h x (by simp [hx])), List.singleton_append]

theorem goQuote_plain (v : String) (h : ∀ c ∈ v.data, PlainChar c) :
    goQuote v = "\"" ++ v ++ "\"" := by
  obtain ⟨l⟩ := v
  unfold goQuote
  rw [flatten_quote_plain l h]
  rfl

/-- C8 counterexample: a label value containing a double quote is escaped
by Go `%q` (the value `a"b` renders as `"a\"b"`), not spliced literally
between the surrounding quotes as the claim states. -/
theorem C8_escaping_counterexample :
    flatName "m" [{ name := "k", value := "a\"b" }] = "m \x7bk=\"a\\\"b\"\x7d" ∧
    flatName "m" [{ name := "k", value := "a\"b" }] ≠ "m \x7bk=\"a\"b\"\x7d" := by
  decide

/-- C8 (amended): an instance with no labels gets the bare base name; with
labels, the flat name is the base name, a space, and the `k="v"` pairs
between braces in payload order (not re-sorted), each value rendered by Go
`%q` — which escapes quotes, backslashes and control characters rather
than splicing the literal contents; for values of plain printable ASCII
the rendering is exactly the literal value between double quotes. -/
theorem C8_flatName_rendering :
    (∀ (name : String) (labels : List LabelPair),
      (labels = [] → flatName name labels = name) ∧
      (labels ≠ [] → flatName name labels
        = name ++ " \x7b" ++ String.intercalate ", "
            (labels.map (fun l => l.name ++ "=" ++ goQuote l.value)) ++ "\x7d")) ∧
    (∀ v : String, (∀ c ∈ v.data, PlainChar c) → goQuote v = "\"" ++ v ++ "\"") := by
  constructor
  · intro name labels
    constructor
    · intro h
      subst h
      rfl
    · intro h
      unfold flatName
      rw [if_neg (by simpa [List.length_eq_zero] using h)]
  · exact goQuote_plain

/-- Witness for C8 at a one-label instance with a plain value. -/
theorem C8_flatName_rendering_witness :
    flatName "m" [{ name := "k", value := "v" }]
      = "m" ++ " \x7b" ++ String.intercalate ", "
          (([{ name := "k", value := "v" }] : List LabelPair).map
            (fun l => l.name ++ "=" ++ goQuote l.value)) ++ "\x7d" ∧
    goQuote "v" = "\"" ++ "v" ++ "\"" :=
  ⟨(C8_flatName_rendering.1 "m" _).2 (by decide),
   C8_flatName_rendering.2 "v" (by decide)⟩

/-- The possible outcomes of the HTTP fetch inside `Sample`, as the code
observes them: request construction failure, transport failure, or a
response with a status code and a body whose decoding (the external
expfmt decoder driven by `newObservationSet`) either fails or yields
metric families. -/
inductive FetchResult where
  | reqError
  | connError
  | response (status : Nat) (body : Except String (List MetricFamily))

/-- The `fmt.Errorf` cases `Sample` can return. -/
inductive SampleErr where
  | createRequest
  | doRequest
  | unexpectedStatus
  | parseResponse
deriving DecidableEq

/-- Embeds `Store.Sample` (part_003): try the non-blocking lock and return
`(false, nil)` when it is already held; otherwise fetch, check the status,
decode and flatten, and append exactly one snapshot on success.  The lock
is held for the body and released on return (`defer h.mux.Unlock()`); the
argument `now` is the `time.Now()` timestamp `newObservationSet` takes;
`none` models the panic of `add` on a size-0 buffer. -/
def Store.Sample (h : Store) (fr : FetchResult) (now : Int) :
    Option (Store × Bool × Option SampleErr) :=
  if h.locked then some (h, false, none)
  else
    match fr with
    | FetchResult.reqError => some (h, false, some SampleErr.createRequest)
    | FetchResult.connError => some (h, false, some SampleErr.doRequest)
    | FetchResult.response status body =>
      if status ≠ 200 then some (h, false, some SampleErr.unexpectedStatus)
      else
        match body with
        | Except.error _ => some (h, false, some SampleErr.parseResponse)
        | Except.ok mfs =>
          match h.rb.Add (flatten mfs now) with
          | none => none
          | some rb2 => some ({ h with rb := rb2 }, true, none)

/-- The `TryLock` step at the top of `Sample` in isolation: acquire the
write lock of the store's `sync.RWMutex`, or report failure when it is
already held. -/
def tryBeginSample (h : Store) : Store × Bool :=
  if h.locked then (h, false) else ({ h with locked := true }, true)

/-- C6: with the lock free and a well-formed buffer, every fetch or decode
failure makes `Sample` return `(false, error)` with the store — in
particular its history buffer — unchanged, and a successful fetch and
decode appends exactly one snapshot (the flattened families) and returns
`(true, nil)`. -/
theorem C6_sample_fetch_decode (h : Store) (now : Int)
    (hl : h.locked = false) (hinv : RBInv h.rb) :
    (h.Sample FetchResult.reqError now
      = some (h, false, some SampleErr.createRequest)) ∧
    (h.Sample FetchResult.connError now
      = some (h, false, some SampleErr.doRequest)) ∧
    (∀ (status : Nat) (body : Except String (List MetricFamily)), status ≠ 200 →
      h.Sample (FetchResult.response status body) now
        = some (h, false, some SampleErr.unexpectedStatus)) ∧
    (∀ e, h.Sample (FetchResult.response 200 (Except.error e)) now
        = some (h, false, some SampleErr.parseResponse)) ∧
    (∀ mfs, ∃ rb2, h.rb.Add (flatten mfs now) = some rb2 ∧
      h.Sample (FetchResult.response 200 (Except.ok mfs)) now
        = some ({ h with rb := rb2 }, true, none) ∧
      rb2.Get = (h.rb.Get ++ [flatten mfs now]).drop (h.rb.count + 1 - h.rb.size)) := by
  have hnl : ¬(h.locked = true) := by simp [hl]
  refine ⟨?_, ?_, ?_, ?_, ?_⟩
  · unfold Store.Sample
    rw [if_neg hnl]
  · unfold Store.Sample
    rw [if_neg hnl]
  · intro status body hs
    unfold Store.Sample
    rw [if_neg hnl]
    dsimp only
    rw [if_pos hs]
  · intro e
    unfold Store.Sample
    rw [if_neg hnl]
    dsimp only
    rw [if_neg (by simp)]
  · intro mfs
    obtain ⟨rb2, hadd, _, _, _, hget⟩ := rbAdd_step h.rb (flatten mfs now) hinv
    refine ⟨rb2, hadd, ?_, hget⟩
    unfold Store.Sample
    rw [if_neg hnl]
    dsimp only
    rw [if_neg (by simp), hadd]

/-- A store with one free slot and the lock free, for the C6 witness. -/
def c6store : Store :=
  { endpoint := "", rb := NewRingBuffer Snapshot 1, locked := false }

/-- Witness for C6: on the concrete store a transport failure returns
`(false, error)` unchanged. -/
theorem C6_sample_fetch_decode_witness :
    c6store.locked = false ∧ RBInv c6store.rb ∧
    c6store.Sample FetchResult.connError 0
      = some (c6store, false, some SampleErr.doRequest) :=
  ⟨rfl, by decide, (C6_sample_fetch_decode c6store 0 rfl (by decide)).2.1⟩

/-- C7: a `Sample` that finds the lock held returns `(false, nil)` without
fetching — the result is the same for every fetch outcome — and appends
nothing; when two calls overlap, the first `TryLock` acquires the lock
without touching the buffer, and a whole `Sample` running while it is
held is the no-op, so exactly one of the two performs the fetch. -/
theorem C7_single_flight :
    (∀ (h : Store) (fr : FetchResult) (now : Int), h.locked = true →
      h.Sample fr now = some (h, false, none)) ∧
    (∀ h : Store, h.locked = false →
      (tryBeginSample h).2 = true ∧ (tryBeginSample h).1.locked = true ∧
      (tryBeginSample h).1.rb = h.rb ∧
      (∀ (fr : FetchResult) (now : Int),
        (tryBeginSample h).1.Sample fr now = some ((tryBeginSample h).1, false, none))) := by
  constructor
  · intro h fr now hl
    unfold Store.Sample
    rw [if_pos hl]
  · intro h hl
    have ht : tryBeginSample h = ({ h with locked := true }, true) := by
      unfold tryBeginSample
      rw [if_neg (by simp [hl])]
    refine ⟨by rw [ht], by rw [ht], by rw [ht], ?_⟩
    intro fr now
    rw [ht]
    unfold Store.Sample
    rw [if_pos rfl]

/-- A store whose lock is held, for the C7 witness. -/
def c7heldStore : Store :=
  { endpoint := "", rb := NewRingBuffer Snapshot 1, locked := true }

/-- A store whose lock is free, for the C7 witness. -/
def c7freeStore : Store :=
  { endpoint := "", rb := NewRingBuffer Snapshot 1, locked := false }

/-- Witness for C7 at the two concrete stores. -/
theorem C7_single_flight_witness :
    c7heldStore.Sample FetchResult.connError 0 = some (c7heldStore, false, none) ∧
    (tryBeginSample c7freeStore).2 = true :=
  ⟨C7_single_flight.1 c7heldStore FetchResult.connError 0 rfl,
   (C7_single_flight.2 c7freeStore rfl).1⟩

/-- Model of Go `strings.Split(s, " ")` on the character list: the
(possibly empty) segments between single spaces; never the empty list. -/
def splitSp (s : List Char) : List (List Char) :=
  match s with
  | [] => [[]]
  | c :: t =>
    if c.toNat = 32 then [] :: splitSp t
    else
      match splitSp t with
      | [] => [[c]]
      | seg :: rest => (c :: seg) :: rest

/-- Embeds `rateName(name)`: split on spaces, suffix the first segment
with `_per_second_rate`, re-join the rest with spaces unchanged
(`strings.Split` never returns an empty slice, so the first match arm is
unreachable). -/
def rateName (name : String) : String :=
  match splitSp name.data with
  | [] => "_per_second_rate"
  | base :: rest =>
    if rest.isEmpty then String.mk base ++ "_per_second_rate"
    else String.mk base ++ "_per_second_rate" ++ " "
      ++ String.intercalate " " (rest.map String.mk)

/-- Embeds `computeRate(c, p)` (cmd/promtui/main.go), Go locals inlined:
the duration in nanoseconds, the value delta; under one second the rate is
`delta * float64(time.Second.Nanoseconds() / dur.Nanoseconds())` — an
integer division with no zero guard, so equal timestamps panic with a
division by zero, modelled as `none` — otherwise `delta / dur.Seconds()`
(`dur.Seconds()` is exactly `dur / 1e9` on exact rationals). -/
def computeRate (c p : Observation) : Option Observation :=
  if c.Time - p.Time < 1000000000 then
    if c.Time - p.Time = 0 then none
    else some (NewObservation (rateName c.Name) ObservationKind.counterRate c.Time
      ((c.Value - p.Value) * ((Int.tdiv 1000000000 (c.Time - p.Time) : Int) : Rat)))
  else some (NewObservation (rateName c.Name) ObservationKind.counterRate c.Time
    ((c.Value - p.Value) / (((c.Time - p.Time : Int) : Rat) / 1000000000)))

/-- The loop of `derive` that builds the rate series:
`computeRate(ots[i], ots[i+1])` for `i = 0 .. len-2`. -/
def rateSeries : List Observation → Option (List Observation)
  | c :: p :: rest =>
    match computeRate c p with
    | none => none
    | some r =>
      match rateSeries (p :: rest) with
      | none => none
      | some rs => some (r :: rs)
  | _ => some []

/-- Embeds `derive(ots)` (cmd/promtui/main.go): always returns the
original series first and, when the head kind is counter-like and the
length exceeds 1, appends the derived rate series.  `o := ots[0]` panics
on an empty series (index out of range), modelled as `none`. -/
def derive (ots : List Observation) : Option (List (List Observation)) :=
  match ots with
  | [] => none
  | o :: rest =>
    if (o.Kind = ObservationKind.counter ∨ o.Kind = ObservationKind.histogramCount)
        ∧ (o :: rest).length > 1 then
      match rateSeries (o :: rest) with
      | none => none
      | some rs => some [o :: rest, rs]
    else some [o :: rest]

/-- Adjacent observations all carry distinct timestamps — the implicit
precondition of the rate loop (C10). -/
def adjacentDistinct : List Observation → Bool
  | a :: b :: t => (a.Time != b.Time) && adjacentDistinct (b :: t)
  | _ => true

/-- The derived observation of one adjacent pair with distinct timestamps,
as `computeRate` produces it. -/
def rateObs (c p : Observation) : Observation :=
  NewObservation (rateName c.Name) ObservationKind.counterRate c.Time
    (if c.Time - p.Time < 1000000000 then
      (c.Value - p.Value) * ((Int.tdiv 1000000000 (c.Time - p.Time) : Int) : Rat)
     else (c.Value - p.Value) / (((c.Time - p.Time : Int) : Rat) / 1000000000))

theorem computeRate_ne (c p : Observation) (h : c.Time ≠ p.Time) :
    computeRate c p = some (rateObs c p) := by
  unfold computeRate rateObs
  by_cases hlt : c.Time - p.Time < 1000000000
  · rw [if_pos hlt, if_neg (by omega), if_pos hlt]
  · rw [if_neg hlt, if_neg hlt]

theorem rateSeries_ok (ots : List Observation) (h : adjacentDistinct ots = true) :
    rateSeries ots = some ((ots.zip ots.tail).map (fun q => rateObs q.1 q.2)) := by
  induction ots with
  | nil => rfl
  | cons c rest ih =>
    cases rest with
    | nil => rfl
    | cons p rest2 =>
      rw [adjacentDistinct, Bool.and_eq_true] at h
      have hne : c.Time ≠ p.Time := by simpa using h.1
      show (match computeRate c p with
        | none => none
        | some r =>
          match rateSeries (p :: rest2) with
          | none => none
          | some rs => some (r :: rs)) = _
      rw [computeRate_ne c p hne, ih h.2]
      rfl

/-- C5 counterexample: the claim says a series of length < 2 yields no
derived series and no error, but `derive` dereferences `ots[0]`, so on the
empty series (length 0 < 2) the code panics (index out of range) instead
of returning the one-element result with no error. -/
theorem C5_empty_series_counterexample :
    derive [] = none ∧ derive [] ≠ some [[]] :=
  ⟨rfl, by decide⟩

/-- C5 (amended): for a non-empty series whose head kind is Counter or
HistogramCount, with length at least 2 and distinct adjacent timestamps
(the precondition stated by C10), `derive` returns the original series plus exactly one
CounterRate observation per adjacent pair (newest-first), each valued by
the sub-second integer-scaled formula or the plain division and named by
`rateName`; a series of length exactly 1, or a non-empty series of any
other kind, yields no derived series and no error; `rateName` suffixes
the base segment with `_per_second_rate` and keeps a label-braces segment
unchanged. -/
theorem C5_derive_rate :
    (∀ (o : Observation) (rest : List Observation),
      (o.Kind = ObservationKind.counter ∨ o.Kind = ObservationKind.histogramCount) →
      rest ≠ [] →
      adjacentDistinct (o :: rest) = true →
      derive (o :: rest)
        = some [o :: rest, ((o :: rest).zip rest).map (fun q => rateObs q.1 q.2)] ∧
      (((o :: rest).zip rest).map (fun q => rateObs q.1 q.2)).length
        = (o :: rest).length - 1 ∧
      (∀ r ∈ ((o :: rest).zip rest).map (fun q => rateObs q.1 q.2),
        r.Kind = ObservationKind.counterRate)) ∧
    (∀ o : Observation, derive [o] = some [[o]]) ∧
    (∀ (o : Observation) (rest : List Observation),
      ¬(o.Kind = ObservationKind.counter ∨ o.Kind = ObservationKind.histogramCount) →
      derive (o :: rest) = some [o :: rest]) ∧
    rateName "requests_total \x7bcode=\"200\"\x7d"
      = "requests_total_per_second_rate \x7bcode=\"200\"\x7d" ∧
    rateName "requests_total" = "requests_total_per_second_rate" := by
  refine ⟨?_, ?_, ?_, by decide, by decide⟩
  · intro o rest hk hne hadj
    have hrs := rateSeries_ok (o :: rest) hadj
    refine ⟨?_, ?_, ?_⟩
    · unfold derive
      dsimp only
      have hlen : (o :: rest).length > 1 := by
        cases rest with
        | nil => exact absurd rfl hne
        | cons _ _ => simp
      rw [if_pos ⟨hk, hlen⟩, hrs]
      rfl
    · simp only [List.length_map, List.length_zip, List.length_cons]
      omega
    · intro r hr
      rcases List.mem_map.mp hr with ⟨q, _, rfl⟩
      rfl
  · intro o
    unfold derive
    dsimp only
    rw [if_neg (by simp)]
  · intro o rest hk
    unfold derive
    dsimp only
    rw [if_neg (by simp [hk])]

/-- The newer observation of the C5 witness pair (counter 110 at t = 10s). -/
def c5newer : Observation :=
  NewObservation "requests_total" ObservationKind.counter 10000000000 110

/-- The older observation of the C5 witness pair (counter 100 at t = 0s). -/
def c5older : Observation :=
  NewObservation "requests_total" ObservationKind.counter 0 100

/-- Witness for C5 at a concrete two-element counter series. -/
theorem C5_derive_rate_witness :
    derive [c5newer, c5older]
      = some [[c5newer, c5older],
          ([c5newer, c5older].zip [c5older]).map (fun q => rateObs q.1 q.2)] :=
  ((C5_derive_rate.1 c5newer [c5older] (Or.inl rfl) (by decide) (by decide)).1)

/-- C10: `computeRate` divides by the elapsed nanoseconds in its
sub-second branch with no zero guard, so it is well-defined exactly when
the two observations of the pair carry different timestamps; for equal
timestamps the divisor `c.Time - p.Time` is zero and the
division-by-zero branch is reached (the Go runtime panic, `none`). -/
theorem C10_computeRate_needs_distinct_timestamps (c p : Observation) :
    computeRate c p = none ↔ c.Time = p.Time := by
  constructor
  · intro hnone
    unfold computeRate at hnone
    by_cases hlt : c.Time - p.Time < 1000000000
    · rw [if_pos hlt] at hnone
      by_cases h0 : c.Time - p.Time = 0
      · omega
      · rw [if_neg h0] at hnone
        exact absurd hnone (by simp)
    · rw [if_neg hlt] at hnone
      exact absurd hnone (by simp)
  · intro he
    unfold computeRate
    rw [if_pos (by omega), if_pos (by omega)]

/-- Witness for C10 at a concrete equal-timestamp pair. -/
theorem C10_computeRate_needs_distinct_timestamps_witness :
    computeRate (NewObservation "a" ObservationKind.counter 5 1)
        (NewObservation "a" ObservationKind.counter 5 2) = none :=
  (C10_computeRate_needs_distinct_timestamps _ _).mpr rfl

/-- C9 counterexample: `NewRingBuffer` and `NewStore` have no error
result — construction with capacity 0 succeeds and returns a buffer whose
first `Add` panics (index out of range), so the bad capacity is not
reported to the caller at construction. -/
theorem C9_capacity_zero_counterexample :
    NewRingBuffer Snapshot 0
      = { buffer := [], size := 0, write := 0, count := 0 } ∧
    (NewRingBuffer Snapshot 0).Add [] = none ∧
    (NewStore 0 "http://localhost:8080/healthz/metrics").rb.Add [] = none :=
  ⟨rfl, rfl, rfl⟩

/-- C9 (amended): constructing with capacity 0 does not fail — the
constructors have no error channel and perform no validation; the
returned buffer reports length 0, yields no contents, and every later
`Add` on it panics, so the misbehaviour is deferred to first use rather
than reported as an InvalidConfiguration error at construction. -/
theorem C9_capacity_zero_behaviour :
    (∀ (T : Type) [Inhabited T],
      (NewRingBuffer T 0).Len = 0 ∧ (NewRingBuffer T 0).Get = [] ∧
      ∀ v : T, (NewRingBuffer T 0).Add v = none) ∧
    (∀ endpoint : String, (NewStore 0 endpoint).rb = NewRingBuffer Snapshot 0) := by
  constructor
  · intro T _
    refine ⟨rfl, rfl, ?_⟩
    intro v
    rfl
  · intro endpoint
    rfl

/-- Witness for C9 at the snapshot-typed buffer and a concrete endpoint. -/
theorem C9_capacity_zero_behaviour_witness :
    (NewRingBuffer Snapshot 0).Len = 0 ∧
    (NewRingBuffer Snapshot 0).Add [] = none ∧
    (NewStore 0 "x").rb = NewRingBuffer Snapshot 0 :=
  ⟨(C9_capacity_zero_behaviour.1 Snapshot).1,
   (C9_capacity_zero_behaviour.1 Snapshot).2.2 [],
   C9_capacity_zero_behaviour.2 "x"⟩

end Promtui
